import Mathlib

/-!
Verification of the asynchronous processing subsystem of the church-media-automation
repository: the work-queue dedup layer (`enqueueProcessVideo`), the idempotent video
upsert (`videoRepository.upsertVideo`), the episode uniqueness constraint
(`episodesRepository.createEpisode` + the `episodes` table schema), the backfill
orchestrator (`backfillJobService.processBackfillJob` / `cancelJob`), the pipeline
orchestrator's progress emissions (`processVideoOrchestrator`), the SSE
snapshot-then-live stream (`progressStreamService.streamJobProgress`), and the
WebSub signature check (`websub.verifySignature`).

Each TypeScript function is shallow-embedded as an executable Lean definition.
Database tables are lists of rows; the queue broker is a list of job records;
external collaborators (YouTube download, AI stages, object storage, HMAC) are
oracle parameters supplying their results, matching the repository's narrow
interfaces.  JavaScript `undefined`/`null` is `Option`, thrown exceptions are
`Except`, and JS falsiness of the empty string is modelled explicitly where the
code relies on it.
-/

namespace ChurchMedia

/-! ## Video repository (`src/repositories/videoRepository.ts`) -/

/-- Video `status` column: `CHECK (status IN ('discovered','processing','processed','failed'))`
from the `videos` table schema. -/
inductive VideoStatus
  | discovered
  | processing
  | processed
  | failed
deriving DecidableEq, Repr

/-- Row of the `videos` table, as in the `Video` interface of
`videoRepository.ts`.  `raw_payload` (a JSONB value) is kept opaque as a
string. -/
structure Video where
  id : String
  agent_id : String
  youtube_video_id : String
  youtube_url : String
  title : Option String
  published_at : Option String
  duration_seconds : Option Int
  status : VideoStatus
  error_message : Option String
  raw_payload : Option String
deriving DecidableEq, Repr

/-- The `CreateVideoInput` interface of `videoRepository.ts`. -/
structure CreateVideoInput where
  agent_id : String
  youtube_video_id : String
  youtube_url : String
  title : Option String
  published_at : Option String
  raw_payload : Option String
deriving DecidableEq, Repr

/-- JavaScript `x || null` applied to an optional string: `undefined`, `null`
and the empty string all collapse to `null`. -/
def jsStrOrNull (o : Option String) : Option String :=
  match o with
  | none => none
  | some s => if s = "" then none else some s

/-- Embeds `findVideoByYouTubeId(agentId, youtubeVideoId)`: the `videos` table is
filtered by both key columns; `.single()` returns the row or no row.  Under the
schema's `UNIQUE (agent_id, youtube_video_id)` constraint at most one row can
match, so the first match is the match. -/
def findVideoByYouTubeId (table : List Video) (agentId youtubeVideoId : String) :
    Option Video :=
  table.find? (fun v => v.agent_id = agentId ∧ v.youtube_video_id = youtubeVideoId)

/-- Embeds `upsertVideo(input)` from `videoRepository.ts`: look the key up first; if a
row exists return it unchanged, otherwise insert a fresh row with status
`"discovered"`.  `freshId` stands for the database-generated UUID.  Returns the
video record together with the table after the call. -/
def upsertVideo (table : List Video) (input : CreateVideoInput) (freshId : String) :
    Video × List Video :=
  match findVideoByYouTubeId table input.agent_id input.youtube_video_id with
  | some existing => (existing, table)
  | none =>
    let v : Video :=
      { id := freshId
        agent_id := input.agent_id
        youtube_video_id := input.youtube_video_id
        youtube_url := input.youtube_url
        title := jsStrOrNull input.title
        published_at := jsStrOrNull input.published_at
        duration_seconds := none
        status := .discovered
        error_message := none
        raw_payload := jsStrOrNull input.raw_payload }
    (v, table ++ [v])

/-- Number of rows of the `videos` table holding a given composite key. -/
def videoKeyCount (table : List Video) (agentId youtubeVideoId : String) : Nat :=
  (table.filter (fun v =>
    v.agent_id = agentId ∧ v.youtube_video_id = youtubeVideoId)).length

/-! ## Episodes repository (`src/unnamed/part_035`, schema `src/unnamed/part_002`) -/

/-- Row of the `episodes` table (the `Episode` interface of the episodes
repository). -/
structure Episode where
  id : String
  agent_id : String
  video_id : String
  title : String
  description : Option String
  audio_url : String
  audio_size_bytes : Int
  duration_seconds : Option Int
  guid : String
  published_at : String
  published : Bool
deriving DecidableEq, Repr

/-- The `CreateEpisodeInput` interface of the episodes repository. -/
structure CreateEpisodeInput where
  agent_id : String
  video_id : String
  title : String
  description : Option String
  audio_url : String
  audio_size_bytes : Int
  duration_seconds : Option Int
  guid : String
  published_at : String
  published : Bool
deriving DecidableEq, Repr

/-- Embeds `createEpisode(input)`: a plain `insert` into the `episodes` table.  The
schema declares `UNIQUE (agent_id, video_id)` ("Prevent double publishing") and
`UNIQUE (agent_id, guid)`, so the insert errors out when either key is already
present, and the repository function turns that error into a thrown exception
(`Except.error`). -/
def createEpisode (table : List Episode) (input : CreateEpisodeInput) (freshId : String) :
    Except String (Episode × List Episode) :=
  if table.any (fun e => e.agent_id = input.agent_id ∧ e.video_id = input.video_id) then
    .error "Failed to create episode: duplicate key (agent_id, video_id)"
  else if table.any (fun e => e.agent_id = input.agent_id ∧ e.guid = input.guid) then
    .error "Failed to create episode: duplicate key (agent_id, guid)"
  else
    let row : Episode :=
      { id := freshId
        agent_id := input.agent_id
        video_id := input.video_id
        title := input.title
        description := jsStrOrNull input.description
        audio_url := input.audio_url
        audio_size_bytes := input.audio_size_bytes
        duration_seconds := input.duration_seconds
        guid := input.guid
        published_at := input.published_at
        published := input.published }
    .ok (row, table ++ [row])

/-- The `episodes` table after one `createEpisode` attempt: a failed insert
(unique-constraint violation) leaves the table as it was. -/
def createEpisodeTable (table : List Episode) (input : CreateEpisodeInput) (freshId : String) :
    List Episode :=
  match createEpisode table input freshId with
  | .ok (_, t) => t
  | .error _ => table

/-- The `episodes` table after a sequence of `createEpisode` attempts (for
example the attempts made by retried `process_video` jobs). -/
def runCreateEpisodes (table : List Episode) (attempts : List (CreateEpisodeInput × String)) :
    List Episode :=
  attempts.foldl (fun t a => createEpisodeTable t a.1 a.2) table

/-- Number of `episodes` rows referencing a given video. -/
def episodeCountForVideo (table : List Episode) (videoId : String) : Nat :=
  (table.filter (fun e => e.video_id = videoId)).length

/-! ## Work queue (`src/services/external/queue/enqueueProcessVideo.ts`) -/

/-- Broker job states as reported by `job.getState()`.  `waiting`, `delayed`,
`active`, `completed` and `failed` are the broker's lifecycle states; `unknown`
is what the broker reports for a record it cannot place (the code treats it as
possibly stalled). -/
inductive BrokerState
  | waiting
  | delayed
  | active
  | completed
  | failed
  | unknown
deriving DecidableEq, Repr

/-- Payload of a queue job.  `process_video` jobs carry
`{agentId, youtubeVideoId, youtubeUrl, title?}` (see `EnqueueProcessVideoParams`);
`backfill-scan` jobs carry `{jobId, agentId}`.  Absent JS fields are `none`;
in particular no enqueue in the repository ever sets a `source` field. -/
structure QueueJobData where
  agentId : Option String
  youtubeVideoId : Option String
  youtubeUrl : Option String
  title : Option String
  jobId : Option String
  source : Option String
deriving DecidableEq, Repr

/-- A job record held by the queue broker: custom job id, job name, broker
state, payload. -/
structure QueueJob where
  id : String
  name : String
  state : BrokerState
  data : QueueJobData
deriving DecidableEq, Repr

/-- Embeds `queues.processVideo.getJob(jobId)`. -/
def getQueueJob (q : List QueueJob) (jobId : String) : Option QueueJob :=
  q.find? (fun j => j.id = jobId)

/-- Embeds `existingJob.remove()`: the record under the custom id leaves the broker. -/
def removeQueueJob (q : List QueueJob) (jobId : String) : List QueueJob :=
  q.filter (fun j => ¬ j.id = jobId)

/-- Embeds `queue.add(name, data, ... jobId ...)`: the broker inserts a fresh `waiting`
job under the custom id — unless a record with that id still exists, in which
case the add is ignored (broker-level id dedup). -/
def queueAdd (q : List QueueJob) (name : String) (jobId : String) (data : QueueJobData) :
    List QueueJob :=
  if (getQueueJob q jobId).isSome then q
  else q ++ [{ id := jobId, name := name, state := .waiting, data := data }]

/-- The `EnqueueProcessVideoParams` interface. -/
structure EnqueueProcessVideoParams where
  agentId : String
  youtubeVideoId : String
  youtubeUrl : String
  title : Option String
deriving DecidableEq, Repr

/-- The `EnqueueResult` interface: `{jobId, enqueued}`. -/
structure EnqueueResult where
  jobId : String
  enqueued : Bool
deriving DecidableEq, Repr

/-- Composite dedup key used as the custom job id: the agent id and the
YouTube video id joined by an underscore. -/
def processVideoJobId (params : EnqueueProcessVideoParams) : String :=
  params.agentId ++ "_" ++ params.youtubeVideoId

/-- Payload stored by `enqueueProcessVideo` (no `jobId`, no `source` field). -/
def processVideoJobData (params : EnqueueProcessVideoParams) : QueueJobData :=
  { agentId := some params.agentId
    youtubeVideoId := some params.youtubeVideoId
    youtubeUrl := some params.youtubeUrl
    title := params.title
    jobId := none
    source := none }

/-- Embeds `enqueueProcessVideo(params)` from `enqueueProcessVideo.ts`: look up the
job under the composite id; a `waiting`/`delayed` record rejects the enqueue
(`enqueued: false`); an `active`, `failed` or `unknown` record is removed
(three successive `if` statements on the one fetched state); then the job is
added and `enqueued: true` returned.  Returns the queue after the call and the
`EnqueueResult`. -/
def enqueueProcessVideo (q : List QueueJob) (params : EnqueueProcessVideoParams) :
    List QueueJob × EnqueueResult :=
  let jobId := processVideoJobId params
  match getQueueJob q jobId with
  | some existingJob =>
    let state := existingJob.state
    if state = .waiting ∨ state = .delayed then
      (q, { jobId := jobId, enqueued := false })
    else
      let q1 := if state = .active then removeQueueJob q jobId else q
      let q2 := if state = .failed then removeQueueJob q1 jobId else q1
      let q3 := if state = .unknown then removeQueueJob q2 jobId else q2
      (queueAdd q3 "process_video" jobId (processVideoJobData params),
       { jobId := jobId, enqueued := true })
  | none =>
    (queueAdd q "process_video" jobId (processVideoJobData params),
     { jobId := jobId, enqueued := true })

/-! ## Backfill job rows (`src/repositories/backfillJobRepository.ts`) -/

/-- BackfillJob `status` column (the repository's union type). -/
inductive BackfillStatus
  | pending
  | processing
  | completed
  | failed
deriving DecidableEq, Repr

/-- An entry of the `failed_videos` JSONB list: `{videoId, title, reason}`. -/
structure FailedVideo where
  videoId : String
  title : Option String
  reason : String
deriving DecidableEq, Repr

/-- Row of the `backfill_jobs` table (counters default to `0`, `failed_videos`
to `[]`). -/
structure BackfillJobRow where
  id : String
  agent_id : String
  status : BackfillStatus
  total_videos : Nat
  processed_videos : Nat
  enqueued_videos : Nat
  failed_videos : List FailedVideo
  error : Option String
deriving DecidableEq, Repr

/-! ## `cancelJob` (`src/services/business/backfillJobService.ts`, lines 458–511) -/

/-- State touched by `cancelJob`: the broker queue and the `backfill_jobs`
table. -/
structure CancelState where
  queue : List QueueJob
  backfillJobs : List BackfillJobRow
deriving DecidableEq, Repr

/-- Embeds `findBackfillJobById(id)`. -/
def findBackfillJobById (table : List BackfillJobRow) (id : String) : Option BackfillJobRow :=
  table.find? (fun j => j.id = id)

/-- Embeds `updateJobStatus(id, status, error?)`: set status and error on the row. -/
def updateJobStatusRow (table : List BackfillJobRow) (id : String)
    (status : BackfillStatus) (error : Option String) : List BackfillJobRow :=
  table.map (fun j => if j.id = id then { j with status := status, error := error } else j)

/-- The states fetched by `queue.getJobs(["waiting", "active", "delayed"])`. -/
def fetchedByCancel (s : BrokerState) : Bool :=
  s = .waiting ∨ s = .active ∨ s = .delayed

/-- The per-job removal decision inside `cancelJob`'s loop, exactly as nested in
the source: an outer guard `data.source === "backfill" || name === "backfill-scan"`,
then remove when it is the scan job of this backfill
(`name === "backfill-scan" && data.jobId === jobId`), else remove when it is a
backfill-tagged job of the agent (`data.agentId === agentId && data.source === "backfill"`). -/
def cancelRemoves (jobId agentId : String) (j : QueueJob) : Bool :=
  if j.data.source = some "backfill" ∨ j.name = "backfill-scan" then
    if j.name = "backfill-scan" ∧ j.data.jobId = some jobId then true
    else if j.data.agentId = some agentId ∧ j.data.source = some "backfill" then true
    else false
  else false

/-- Embeds `cancelJob(jobId, agentId)`: reject unless the row exists, belongs to the
agent and is `pending`/`processing`; otherwise remove every fetched
(waiting/active/delayed) queue job the loop matches and mark the row
`failed` with reason `"Cancelled by user"`. -/
def cancelJob (st : CancelState) (jobId agentId : String) : Except String CancelState :=
  match findBackfillJobById st.backfillJobs jobId with
  | none => .error "Backfill job not found"
  | some job =>
    if ¬ job.agent_id = agentId then
      .error "Job does not belong to this agent"
    else if ¬ (job.status = .pending ∨ job.status = .processing) then
      .error "Cannot cancel job with this status"
    else
      let queue' := st.queue.filter (fun j =>
        ¬ (fetchedByCancel j.state ∧ cancelRemoves jobId agentId j))
      .ok { queue := queue'
            backfillJobs := updateJobStatusRow st.backfillJobs jobId .failed
              (some "Cancelled by user") }

/-! ## Error sanitizer (`src/utils/errorMessages.ts`, `getGenericErrorMessage`) -/

/-- Substring occurrence test (JS `String.prototype.includes`). -/
def containsSub (hay pat : List Char) : Bool :=
  match hay with
  | [] => pat.isEmpty
  | c :: t => pat.isPrefixOf (c :: t) || containsSub t pat

/-- JS `errorStr.includes(pat)`. -/
def strContains (s pat : String) : Bool :=
  containsSub s.toList pat.toList

/-- JS `String.prototype.toLowerCase` (character-wise lowering). -/
def lowerStr (s : String) : String :=
  String.mk (s.toList.map Char.toLower)

/-- Embeds `getGenericErrorMessage(error)`: lower-case the string rendering of the
thrown value and map known substrings to one of the short user-facing reasons;
everything else falls back to `"Processing failed"`. -/
def getGenericErrorMessage (error : String) : String :=
  let errorStr := lowerStr error
  if strContains errorStr "unavailable" || strContains errorStr "not available"
      || strContains errorStr "404" then "Video unavailable"
  else if strContains errorStr "private" || strContains errorStr "403" then
    "Video is private"
  else if strContains errorStr "copyright" || strContains errorStr "blocked" then
    "Video blocked"
  else if strContains errorStr "yt-dlp" || strContains errorStr "youtube-dl"
      || strContains errorStr "download" then "Download failed"
  else if strContains errorStr "ffmpeg" || strContains errorStr "audio"
      || strContains errorStr "convert" then "Audio processing failed"
  else if strContains errorStr "transcri" || strContains errorStr "openai"
      || strContains errorStr "whisper" then "Transcription failed"
  else if strContains errorStr "timeout" || strContains errorStr "timed out" then
    "Processing timeout"
  else if strContains errorStr "storage" || strContains errorStr "upload"
      || strContains errorStr "supabase" then "Upload failed"
  else "Processing failed"

/-! ## `processBackfillJob` (`src/services/business/backfillJobService.ts`, lines 324–453)

The scan walks the fetched video list; per video it upserts the Video row and,
when the row is newly `discovered`, submits it through the dedup enqueue.  The
database and broker responses for one video are an oracle value
(`PerVideoOutcome`).  Every `updateJobProgress`/`updateJobStatus` (persist) and
every `publishBackfillJob` (publish) appends the durable row's counter triple
`(total_videos, processed_videos, enqueued_videos)` to an observation log, so
the counter invariant can be stated at exactly the points where counters are
persisted or published. -/

/-- One video of `fetchChannelVideosSince`'s result. -/
structure YtVideo where
  videoId : String
  title : String
  publishedAt : String
  description : String
  thumbnailUrl : String
deriving DecidableEq, Repr

/-- Oracle outcome of handling one video inside the scan loop:
`upsertError` = `upsertVideo` threw; `upserted status enq` = the upsert
returned a row with `status`, and — only consulted when the status is
`discovered` — the dedup enqueue either threw (`enq = .error`) or returned
its `enqueued` flag. -/
inductive PerVideoOutcome
  | upsertError (err : String)
  | upserted (status : VideoStatus) (enq : Except String Bool)
deriving Repr

/-- Counter triple of a durable row: `(total, processed, enqueued)`. -/
def rowCounters (r : BackfillJobRow) : Nat × Nat × Nat :=
  (r.total_videos, r.processed_videos, r.enqueued_videos)

/-- In-flight state of one `processBackfillJob` run: the durable row, the
local `processedCount`/`enqueuedCount`/`failedVideos` variables, and the log of
counter observations. -/
structure BackfillRunState where
  row : BackfillJobRow
  processedCount : Nat
  enqueuedCount : Nat
  failedVideos : List FailedVideo
  obs : List (Nat × Nat × Nat)
deriving Repr

/-- The scan loop's `catch` block: push `{videoId, title, reason:
getGenericErrorMessage(err)}` onto `failedVideos` and persist the updated
`failed_videos` list (counters untouched); the loop then continues. -/
def backfillRecordFailure (st : BackfillRunState) (v : YtVideo) (err : String) :
    BackfillRunState :=
  let fv := st.failedVideos ++
    [{ videoId := v.videoId, title := some v.title, reason := getGenericErrorMessage err }]
  let row := { st.row with failed_videos := fv }
  { st with failedVideos := fv, row := row, obs := st.obs ++ [rowCounters row] }

/-- The `processedCount % 10 === 0 || processedCount === youtubeVideos.length`
checkpoint: persist `{processed_videos, enqueued_videos, failed_videos}` and
publish the same values. -/
def backfillCheckpoint (n : Nat) (st : BackfillRunState) : BackfillRunState :=
  if st.processedCount % 10 = 0 ∨ st.processedCount = n then
    let row := { st.row with
      processed_videos := st.processedCount
      enqueued_videos := st.enqueuedCount
      failed_videos := st.failedVideos }
    { st with row := row, obs := st.obs ++ [rowCounters row, rowCounters row] }
  else st

/-- One iteration of the scan loop over `(ytVideo, outcome)`: on upsert success
`processedCount++`; a `discovered` row is submitted to the dedup enqueue, a
successful enqueue bumps `enqueuedCount` and publishes the `activeVideoIds`
payload; an exception from upsert or enqueue lands in the catch block; the
checkpoint runs only when no exception occurred. -/
def backfillStep (n : Nat) (st : BackfillRunState) (vo : YtVideo × PerVideoOutcome) :
    BackfillRunState :=
  match vo.2 with
  | .upsertError err => backfillRecordFailure st vo.1 err
  | .upserted status enq =>
    let st1 := { st with processedCount := st.processedCount + 1 }
    match status, enq with
    | .discovered, .error err => backfillRecordFailure st1 vo.1 err
    | .discovered, .ok enqueued =>
      let st2 :=
        if enqueued then
          { st1 with
            enqueuedCount := st1.enqueuedCount + 1
            obs := st1.obs ++ [rowCounters st1.row] }
        else st1
      backfillCheckpoint n st2
    | _, _ => backfillCheckpoint n st1

/-- Embeds `processBackfillJob(jobId)` for an existing row `row0`: mark `processing`
(persist + publish), fetch the video list (`fetchRes` oracle; a throw lands in
the outer catch, which marks the row `failed` and publishes that), persist +
publish `total_videos`, run the loop, persist the final counters and mark
`completed` (persist + publish). -/
def processBackfillJob (row0 : BackfillJobRow)
    (fetchRes : Except String (List (YtVideo × PerVideoOutcome))) : BackfillRunState :=
  let row1 := { row0 with status := .processing, error := none }
  let obs0 := [rowCounters row1, rowCounters row1]
  match fetchRes with
  | .error e =>
    let rowF := { row1 with status := .failed, error := some e }
    { row := rowF, processedCount := 0, enqueuedCount := 0, failedVideos := []
      obs := obs0 ++ [rowCounters rowF, rowCounters rowF] }
  | .ok videos =>
    let n := videos.length
    let row2 := { row1 with total_videos := n }
    let st1 : BackfillRunState :=
      { row := row2, processedCount := 0, enqueuedCount := 0, failedVideos := []
        obs := obs0 ++ [rowCounters row2, rowCounters row2] }
    let st2 := videos.foldl (backfillStep n) st1
    let row3 := { st2.row with
      processed_videos := st2.processedCount
      enqueued_videos := st2.enqueuedCount
      failed_videos := st2.failedVideos }
    let row4 := { row3 with status := .completed, error := none }
    { st2 with
      row := row4
      obs := st2.obs ++ [rowCounters row3, rowCounters row4, rowCounters row4] }

/-- The `failedVideos` entries a scan over `videos` accumulates: one entry, in
list order, for exactly the videos whose upsert threw or whose (attempted)
enqueue threw. -/
def expectedFailedEntries (videos : List (YtVideo × PerVideoOutcome)) : List FailedVideo :=
  videos.filterMap (fun vo =>
    match vo.2 with
    | .upsertError err =>
      some { videoId := vo.1.videoId, title := some vo.1.title
             reason := getGenericErrorMessage err }
    | .upserted .discovered (.error err) =>
      some { videoId := vo.1.videoId, title := some vo.1.title
             reason := getGenericErrorMessage err }
    | _ => none)

/-- Number of videos whose upsert succeeded (the videos counted by
`processedCount`). -/
def upsertOkCount (videos : List (YtVideo × PerVideoOutcome)) : Nat :=
  (videos.filter (fun vo =>
    match vo.2 with
    | .upsertError _ => false
    | .upserted _ _ => true)).length

/-- The spec's counter invariant on one observed `(total, processed, enqueued)`
triple: `processedVideos ≤ totalVideos` and `enqueuedVideos ≤ processedVideos`. -/
def countersOk (o : Nat × Nat × Nat) : Prop :=
  o.2.1 ≤ o.1 ∧ o.2.2 ≤ o.2.1

/-- Run invariant of the scan loop: the row's total is the fetched count, the
row's persisted counters are within bounds, the local counters satisfy
`enqueuedCount ≤ processedCount`, and every observation so far is
well-formed. -/
def BackfillInv (n : Nat) (st : BackfillRunState) : Prop :=
  st.row.total_videos = n
    ∧ st.row.processed_videos ≤ n
    ∧ st.row.enqueued_videos ≤ st.row.processed_videos
    ∧ st.enqueuedCount ≤ st.processedCount
    ∧ ∀ o ∈ st.obs, countersOk o

/-! ## `processVideoOrchestrator` (`src/unnamed/part_029`, lines 283–419)

External collaborators (media download, AI pipeline, ffmpeg segment work,
object storage, record inserts) are oracle parameters: each is the `Except`
result the corresponding `await` would produce (`.error` = the call threw).
The orchestrator is the source's control flow over those results; its
`updateProgress` emissions are collected in a list of `(progress, status)`
pairs. -/

/-- Result of `downloadVideo(youtubeUrl, youtubeVideoId)`. -/
structure DownloadResult where
  audioPath : String
  title : String
  durationSeconds : Rat
deriving DecidableEq, Repr

/-- The `SermonBoundary` schema output of the AI pipeline. -/
structure SermonBoundary where
  sermon_start_sec : Rat
  sermon_end_sec : Rat
  confidence : Rat
  explanation : String
deriving DecidableEq, Repr

/-- The `EpisodeMetadata` schema output of the AI pipeline. -/
structure EpisodeMetadata where
  episode_title : String
  episode_description : String
deriving DecidableEq, Repr

/-- The `AutopublishDecision` schema output of the AI pipeline. -/
structure AutopublishDecision where
  should_autopublish : Bool
  sermon_likeness : Rat
  category : String
  reasons : List String
deriving DecidableEq, Repr

/-- The `SermonPipelineResult` of `runSermonAiStage`: boundaries, metadata and the
autopublish decision. -/
structure AiResult where
  boundaries : SermonBoundary
  metadata : EpisodeMetadata
  decision : AutopublishDecision
deriving DecidableEq, Repr

/-- Agent fields consulted by the orchestrator. -/
structure AgentRow where
  id : String
  intro_audio_url : Option String
  outro_audio_url : Option String
deriving DecidableEq, Repr

/-- Fields `publicUrl` and `sizeBytes` returned by `uploadEpisode`. -/
structure UploadResult where
  publicUrl : String
  sizeBytes : Int
deriving DecidableEq, Repr

/-- The `ProcessVideoInput` interface (without the injected callback). -/
structure ProcessVideoInput where
  agentId : String
  videoId : String
  youtubeVideoId : String
  youtubeUrl : String
deriving DecidableEq, Repr

/-- The `ProcessVideoResult` interface. -/
structure ProcessVideoResult where
  episodeId : String
  audioUrl : String
deriving DecidableEq, Repr

/-- Oracle results of the orchestrator's external calls, in source order. -/
structure OrchestratorEnv where
  download : Except String DownloadResult
  getVideoById : Except String (Option Video)
  runSermonAiStage : Except String AiResult
  extractSegment : Except String String
  findAgentById : Except String (Option AgentRow)
  downloadIntro : Except String String
  downloadOutro : Except String String
  concatenateAudioFiles : Except String String
  uploadEpisode : Except String UploadResult
  createEpisodeRow : Except String Episode
  createSegmentationRow : Except String Unit

/-- Boolean view of an `Except` result. -/
def exceptIsOk {ε α : Type} (r : Except ε α) : Bool :=
  match r with
  | .ok _ => true
  | .error _ => false

/-- Embeds `processVideoOrchestrator(input)`: the stage sequence of the source, each
`await updateProgress?.(p, label)` appended to the emission log, each external
failure aborting with the thrown error, the boundary validation rejecting
out-of-range AI boundaries, intro/outro downloads only attempted when the
agent has the corresponding URL, and cleanup (`unlink`/`rm`, failures caught
and logged) leaving the result untouched. -/
def processVideoOrchestrator (env : OrchestratorEnv) (input : ProcessVideoInput) :
    List (Nat × String) × Except String ProcessVideoResult :=
  let log := [(5, "Downloading audio from YouTube...")]
  match env.download with
  | .error e => (log, .error e)
  | .ok download =>
    let log := log ++ [(25, "Transcribing audio with AI...")]
    match env.getVideoById with
    | .error e => (log, .error e)
    | .ok none => (log, .error ("Video not found: " ++ input.videoId))
    | .ok (some _video) =>
      match env.runSermonAiStage with
      | .error e => (log, .error e)
      | .ok aiResult =>
        if aiResult.boundaries.sermon_start_sec < 0
            ∨ aiResult.boundaries.sermon_end_sec > download.durationSeconds
            ∨ aiResult.boundaries.sermon_start_sec ≥ aiResult.boundaries.sermon_end_sec then
          (log, .error "Invalid sermon boundaries")
        else
          let log := log ++ [(65, "Extracting sermon segment...")]
          match env.extractSegment with
          | .error e => (log, .error e)
          | .ok _sermonOnlyPath =>
            let log := log ++ [(75, "Assembling final episode...")]
            match env.findAgentById with
            | .error e => (log, .error e)
            | .ok none => (log, .error ("Agent not found: " ++ input.agentId))
            | .ok (some agent) =>
              let introRes : Except String (Option String) :=
                match agent.intro_audio_url with
                | none => .ok none
                | some _ => env.downloadIntro.map some
              match introRes with
              | .error e => (log, .error e)
              | .ok _introPath =>
                let outroRes : Except String (Option String) :=
                  match agent.outro_audio_url with
                  | none => .ok none
                  | some _ => env.downloadOutro.map some
                match outroRes with
                | .error e => (log, .error e)
                | .ok _outroPath =>
                  match env.concatenateAudioFiles with
                  | .error e => (log, .error e)
                  | .ok _finalEpisodePath =>
                    let log := log ++ [(85, "Uploading to cloud storage...")]
                    match env.uploadEpisode with
                    | .error e => (log, .error e)
                    | .ok upload =>
                      let log := log ++ [(95, "Creating episode record...")]
                      match env.createEpisodeRow with
                      | .error e => (log, .error e)
                      | .ok episode =>
                        match env.createSegmentationRow with
                        | .error e => (log, .error e)
                        | .ok _ =>
                          let log := log ++ [(100, "Processing complete!")]
                          (log, .ok { episodeId := episode.id
                                      audioUrl := upload.publicUrl })

/-! ## WebSub signature verification (`src/services/business/videoService.ts`,
`verifySignature` in the websub external service, lines 178–210)

The body's HMAC is computed by the Web Crypto API; its lower-case hex encoding
under the shared secret is the oracle parameter `hmacHex` (a hex string: no
`'='` characters).  The header string is a `List Char`; `none` models an
absent header. -/

/-- JS `String.prototype.split("=")`: segments between the `'='` occurrences,
with empty segments preserved. -/
def splitEq : List Char → List (List Char)
  | [] => [[]]
  | c :: rest =>
    match splitEq rest with
    | [] => [[c]]
    | seg :: segs => if c = '=' then [] :: seg :: segs else (c :: seg) :: segs

/-- Inverse of `splitEq`: interleave the segments with `'='`. -/
def joinEq : List (List Char) → List Char
  | [] => []
  | [x] => x
  | x :: y :: rest => x ++ '=' :: joinEq (y :: rest)

/-- Embeds `verifySignature(body, signature)`: an absent (or empty — JS falsy)
header is accepted iff `NODE_ENV` is not `"production"`; otherwise split the
header on `'='`, reject any algorithm other than `"sha1"`, then compare the
second field to the computed hex HMAC (`undefined` when there is no `'='`,
which never matches). -/
def verifySignature (hmacHex : List Char) (isProd : Bool)
    (signature : Option (List Char)) : Bool :=
  match signature with
  | none => !isProd
  | some s =>
    if s = [] then !isProd
    else
      match splitEq s with
      | [] => false
      | algorithm :: rest =>
        if ¬ algorithm = "sha1".toList then false
        else
          match rest with
          | [] => false
          | expectedHash :: _ => hmacHex = expectedHash

/-- Embeds `processYouTubeNotification(xmlBody, signature?)` up to the signature
gate: when verification fails the function logs and returns before any
parsing, lookup, upsert or enqueue; otherwise the remaining pipeline runs
(its effects abstracted as `restEffects`). -/
def processYouTubeNotification (hmacHex : List Char) (isProd : Bool)
    (signature : Option (List Char)) (restEffects : List String) : List String :=
  if verifySignature hmacHex isProd signature then restEffects else []

/-! ## SSE progress stream (`src/services/business/progressStreamService.ts`,
`streamJobProgress`, lines 709–748)

The worker and one subscriber interleave on a shared timeline.  A trace is the
sequence of atomic actions touching the job's progress: the worker's
`job.updateProgress` (`store`) and `redis.publish` (`publish`), and the
subscriber's three sequential steps from the source — writing the `connected`
frame, reading `job.progress` from the broker (the snapshot), and completing
the Redis `SUBSCRIBE`.  Messages published before the `SUBSCRIBE` completes
are never received (Redis pub/sub is live-only); after it, `events.on`
buffering delivers every message in order.  The subscriber's output is the
sequence of SSE frames it writes. -/

/-- One atomic action on the shared timeline. -/
inductive TraceAction
  | store (p : Nat) (s : String)
  | publish (p : Nat) (s : String)
  | connectWrite
  | snapshotRead
  | subscribeDone
deriving DecidableEq, Repr

/-- SSE frames written by `streamJobProgress`: `connected`, the initial
`progress` frame from the snapshot, live `progress` frames, `complete`. -/
inductive SseMsg
  | connected
  | snapshot (p : Nat) (s : String)
  | progress (p : Nat) (s : String)
  | complete
deriving DecidableEq, Repr

/-- Phase of the subscriber: before `res.write(connected)`, between that and
the snapshot read, between the snapshot read and the completed `SUBSCRIBE`,
live, and closed. -/
inductive StreamPhase
  | start
  | connected
  | snapped
  | live
deriving DecidableEq, Repr

/-- The termination test of the stream loop:
`update.progress >= 100 || update.status === "completed" || update.status === "failed"`. -/
def isTerminalUpdate (p : Nat) (s : String) : Bool :=
  100 ≤ p ∨ s = "completed" ∨ s = "failed"

/-- Execution of `streamJobProgress` against a trace: stores update the
broker-held `job.progress`; the snapshot read emits the current stored state
(nothing when no progress was ever stored — JS falsiness of `undefined`);
publishes are received only in the live phase, each forwarded in order, and a
terminal update emits `complete` and closes the stream. -/
def runStreamAux : List TraceAction → StreamPhase → Option (Nat × String) → List SseMsg
  | [], _, _ => []
  | .store p s :: rest, phase, _ => runStreamAux rest phase (some (p, s))
  | .connectWrite :: rest, .start, lastStored =>
    .connected :: runStreamAux rest .connected lastStored
  | .connectWrite :: rest, phase, lastStored => runStreamAux rest phase lastStored
  | .snapshotRead :: rest, .connected, some (p, s) =>
    .snapshot p s :: runStreamAux rest .snapped (some (p, s))
  | .snapshotRead :: rest, .connected, none => runStreamAux rest .snapped none
  | .snapshotRead :: rest, phase, lastStored => runStreamAux rest phase lastStored
  | .subscribeDone :: rest, .snapped, lastStored => runStreamAux rest .live lastStored
  | .subscribeDone :: rest, phase, lastStored => runStreamAux rest phase lastStored
  | .publish p s :: rest, .live, lastStored =>
    if isTerminalUpdate p s then [.progress p s, .complete]
    else .progress p s :: runStreamAux rest .live lastStored
  | .publish _ _ :: rest, phase, lastStored => runStreamAux rest phase lastStored

/-- The full frame sequence `streamJobProgress` writes for a trace. -/
def streamJobProgress (trace : List TraceAction) : List SseMsg :=
  runStreamAux trace .start none

/-- Subscriber control actions. -/
def isControl : TraceAction → Bool
  | .connectWrite => true
  | .snapshotRead => true
  | .subscribeDone => true
  | _ => false

/-- Worker-only trace segment: no subscriber control actions. -/
def NoCtrl (l : List TraceAction) : Prop :=
  ∀ a ∈ l, isControl a = false

/-- A trace is admissible when the subscriber performs its three steps once
each, in source order, with arbitrary worker activity in between. -/
def Admissible (trace : List TraceAction) : Prop :=
  ∃ t1 t2 t3 t4 : List TraceAction,
    trace = t1 ++ [.connectWrite] ++ t2 ++ [.snapshotRead] ++ t3 ++ [.subscribeDone] ++ t4
      ∧ NoCtrl t1 ∧ NoCtrl t2 ∧ NoCtrl t3 ∧ NoCtrl t4

/-- The `(p, s)` payload of a `store` action. -/
def getStore : TraceAction → Option (Nat × String)
  | .store p s => some (p, s)
  | _ => none

/-- The `(p, s)` payload of a `publish` action. -/
def getPublish : TraceAction → Option (Nat × String)
  | .publish p s => some (p, s)
  | _ => none

/-- Last stored state of a trace segment, starting from `ls`. -/
def updLast (ls : Option (Nat × String)) : List TraceAction → Option (Nat × String)
  | [] => ls
  | .store p s :: rest => updLast (some (p, s)) rest
  | _ :: rest => updLast ls rest

/-- Snapshot frames written for a stored state. -/
def snapMsgs : Option (Nat × String) → List SseMsg
  | some (p, s) => [.snapshot p s]
  | none => []

/-- Frames forwarded from a sequence of received publishes: each in order,
truncated after the first terminal update, which also emits `complete`. -/
def liveMsgs : List (Nat × String) → List SseMsg
  | [] => []
  | (p, s) :: rest =>
    if isTerminalUpdate p s then [.progress p s, .complete]
    else .progress p s :: liveMsgs rest

/-- Publishes of the trace occurring strictly after the subscriber action
satisfying `stop` (the whole-trace suffix after its first occurrence). -/
def pubsAfter (stop : TraceAction → Bool) (trace : List TraceAction) :
    List (Nat × String) :=
  ((trace.dropWhile (fun a => ¬ stop a = true)).drop 1).filterMap getPublish

/-- Publishes of the trace occurring strictly after `connectWrite`. -/
def pubsAfterConnect (trace : List TraceAction) : List (Nat × String) :=
  pubsAfter (fun a => a = .connectWrite) trace

/-- Stored state current when the `SUBSCRIBE` completes. -/
def stateAtSubscribe (trace : List TraceAction) : Option (Nat × String) :=
  ((trace.takeWhile (fun a => ¬ a = .subscribeDone)).filterMap getStore).getLast?

/-- The snapshot frame the subscriber actually wrote, if any. -/
def deliveredSnapshot (trace : List TraceAction) : Option (Nat × String) :=
  ((streamJobProgress trace).filterMap (fun m =>
    match m with
    | .snapshot p s => some (p, s)
    | _ => none)).head?

/-- The live `progress` frames the subscriber actually wrote. -/
def deliveredProgress (trace : List TraceAction) : List (Nat × String) :=
  (streamJobProgress trace).filterMap (fun m =>
    match m with
    | .progress p s => some (p, s)
    | _ => none)

/-- The spec's snapshot-then-live property, stated over a trace: the snapshot
reflects state no older than the subscribe time; no gap — every event
published after connect is delivered (or is the state the snapshot already
delivered); and no live frame duplicates the snapshot's state. -/
def SnapshotThenLiveClaim (trace : List TraceAction) : Prop :=
  deliveredSnapshot trace = stateAtSubscribe trace
    ∧ (∀ e ∈ pubsAfterConnect trace,
        e ∈ deliveredProgress trace ∨ some e = deliveredSnapshot trace)
    ∧ (∀ e ∈ deliveredProgress trace, ¬ some e = deliveredSnapshot trace)

/-- An admissible interleaving realizable by the worker loop (each
`updateProgress` is a `store` immediately followed by its `publish`) in which
the snapshot is read between the second store and its publish, and the
`SUBSCRIBE` completes only after that publish. -/
def cexTrace : List TraceAction :=
  [.connectWrite, .store 25 "a", .publish 25 "a", .store 45 "b", .snapshotRead,
   .subscribeDone, .publish 45 "b", .store 100 "c", .publish 100 "c"]

/-! ## Theorems -/

/-- Membership fact behind `find?`: a found video matched both key columns. -/
theorem findVideoByYouTubeId_keys {table : List Video} {agentId youtubeVideoId : String}
    {v : Video} (h : findVideoByYouTubeId table agentId youtubeVideoId = some v) :
    v.agent_id = agentId ∧ v.youtube_video_id = youtubeVideoId := by
  have hp := List.find?_some h
  simpa using hp

/-- A key with no row makes the lookup fail. -/
theorem findVideoByYouTubeId_eq_none {table : List Video} {agentId youtubeVideoId : String}
    (h : videoKeyCount table agentId youtubeVideoId = 0) :
    findVideoByYouTubeId table agentId youtubeVideoId = none := by
  rw [findVideoByYouTubeId, List.find?_eq_none]
  intro v hv
  rw [videoKeyCount, List.length_eq_zero] at h
  have := List.filter_eq_nil_iff.mp h v hv
  simpa using this

/-- C10: when the composite key already has a row, `upsertVideo` returns the
pre-existing row as-is and leaves the table — hence every stored field of that
row, including `title`, `youtube_url`, `published_at` and `raw_payload` —
untouched, whatever the call supplied. -/
theorem upsertVideo_existing_is_frame (table : List Video) (input : CreateVideoInput)
    (freshId : String) (v : Video)
    (h : findVideoByYouTubeId table input.agent_id input.youtube_video_id = some v) :
    (upsertVideo table input freshId).1 = v
      ∧ (upsertVideo table input freshId).2 = table
      ∧ (upsertVideo table input freshId).1.title = v.title
      ∧ (upsertVideo table input freshId).1.youtube_url = v.youtube_url
      ∧ (upsertVideo table input freshId).1.published_at = v.published_at
      ∧ (upsertVideo table input freshId).1.raw_payload = v.raw_payload
      ∧ (upsertVideo table input freshId).1.status = v.status := by
  unfold upsertVideo
  rw [h]
  exact ⟨rfl, rfl, rfl, rfl, rfl, rfl, rfl⟩

/-- Witness for C10 at a concrete table: the second call supplies a different
title, URL, date and payload, and gets back exactly the stored row. -/
theorem upsertVideo_existing_is_frame_witness :
    (upsertVideo
      [{ id := "v-1", agent_id := "a1", youtube_video_id := "y1",
         youtube_url := "https://www.youtube.com/watch?v=y1", title := some "old title",
         published_at := some "2026-01-01", duration_seconds := none,
         status := .processed, error_message := none, raw_payload := some "p0" }]
      { agent_id := "a1", youtube_video_id := "y1", youtube_url := "other-url",
        title := some "new title", published_at := some "2026-02-02",
        raw_payload := some "p1" } "v-2").1
      = { id := "v-1", agent_id := "a1", youtube_video_id := "y1",
          youtube_url := "https://www.youtube.com/watch?v=y1", title := some "old title",
          published_at := some "2026-01-01", duration_seconds := none,
          status := .processed, error_message := none, raw_payload := some "p0" } :=
  (upsertVideo_existing_is_frame _ _ _ _ (by decide)).1

/-- C2: from a table with no row under the key, two `upsertVideo` calls for the
same `(agent_id, youtube_video_id)` leave exactly one row under the key; the
first call inserts it with status `discovered`, and the second call returns
that same record and changes nothing — in particular it never changes the
stored status. -/
theorem upsertVideo_idempotent (table : List Video) (i1 i2 : CreateVideoInput)
    (id1 id2 : String)
    (hk1 : i2.agent_id = i1.agent_id) (hk2 : i2.youtube_video_id = i1.youtube_video_id)
    (h0 : videoKeyCount table i1.agent_id i1.youtube_video_id = 0) :
    videoKeyCount (upsertVideo (upsertVideo table i1 id1).2 i2 id2).2
        i1.agent_id i1.youtube_video_id = 1
      ∧ (upsertVideo table i1 id1).1.status = .discovered
      ∧ (upsertVideo (upsertVideo table i1 id1).2 i2 id2).1 = (upsertVideo table i1 id1).1
      ∧ (upsertVideo (upsertVideo table i1 id1).2 i2 id2).2 = (upsertVideo table i1 id1).2 := by
  have hnone : findVideoByYouTubeId table i1.agent_id i1.youtube_video_id = none :=
    findVideoByYouTubeId_eq_none h0
  have hfnone : table.find?
      (fun v => v.agent_id = i1.agent_id ∧ v.youtube_video_id = i1.youtube_video_id) = none := by
    simpa [findVideoByYouTubeId] using hnone
  have hfilnil : table.filter
      (fun v => v.agent_id = i1.agent_id ∧ v.youtube_video_id = i1.youtube_video_id) = [] := by
    rw [videoKeyCount, List.length_eq_zero] at h0
    exact h0
  unfold upsertVideo
  rw [hnone]
  simp only [findVideoByYouTubeId, hk1, hk2, List.find?_append, hfnone]
  simp [videoKeyCount, List.filter_append, hfilnil]
  intro a ha hag
  have h' : ¬ (a.agent_id = i1.agent_id ∧ a.youtube_video_id = i1.youtube_video_id) := by
    simpa using List.filter_eq_nil_iff.mp hfilnil a ha
  exact fun hyt => h' ⟨hag, hyt⟩

/-- Witness for C2: double discovery of the same video on an empty table. -/
theorem upsertVideo_idempotent_witness :
    videoKeyCount
      (upsertVideo
        (upsertVideo []
          { agent_id := "a1", youtube_video_id := "y1", youtube_url := "u",
            title := some "t", published_at := none, raw_payload := none } "v-1").2
        { agent_id := "a1", youtube_video_id := "y1", youtube_url := "u2",
          title := some "t2", published_at := none, raw_payload := none } "v-2").2
      "a1" "y1" = 1 :=
  (upsertVideo_idempotent []
    { agent_id := "a1", youtube_video_id := "y1", youtube_url := "u",
      title := some "t", published_at := none, raw_payload := none }
    { agent_id := "a1", youtube_video_id := "y1", youtube_url := "u2",
      title := some "t2", published_at := none, raw_payload := none }
    "v-1" "v-2" rfl rfl (by decide)).1

/-- Removing a job id leaves no record under that id. -/
theorem getQueueJob_remove (q : List QueueJob) (jobId : String) :
    getQueueJob (removeQueueJob q jobId) jobId = none := by
  rw [getQueueJob, List.find?_eq_none]
  intro j hj
  have hm := List.mem_filter.mp hj
  simpa using hm.2

/-- Adding under a free id stores a fresh waiting job there. -/
theorem getQueueJob_add_fresh (q : List QueueJob) (nm jobId : String) (data : QueueJobData)
    (h : getQueueJob q jobId = none) :
    getQueueJob (queueAdd q nm jobId data) jobId
      = some { id := jobId, name := nm, state := .waiting, data := data } := by
  have hf : q.find? (fun j => j.id = jobId) = none := h
  simp [queueAdd, h, getQueueJob, List.find?_append, hf]

/-- C1: dedup behaviour of `enqueueProcessVideo` under the composite key.  A
`waiting`/`delayed` record rejects the enqueue and adds nothing; an `active`,
`failed` or `unknown` (stalled) record is removed and replaced by a fresh
waiting job with `enqueued = true`; once no record exists under the key
(completed/failed/stale records reclaimed), an enqueue is accepted. -/
theorem enqueueProcessVideo_dedup (q : List QueueJob) (params : EnqueueProcessVideoParams) :
    (∀ j, getQueueJob q (processVideoJobId params) = some j →
        (j.state = .waiting ∨ j.state = .delayed) →
        (enqueueProcessVideo q params).2.enqueued = false
          ∧ (enqueueProcessVideo q params).1 = q)
      ∧ (∀ j, getQueueJob q (processVideoJobId params) = some j →
          (j.state = .active ∨ j.state = .failed ∨ j.state = .unknown) →
          (enqueueProcessVideo q params).2.enqueued = true
            ∧ getQueueJob (enqueueProcessVideo q params).1 (processVideoJobId params)
              = some { id := processVideoJobId params, name := "process_video",
                       state := .waiting, data := processVideoJobData params })
      ∧ (getQueueJob q (processVideoJobId params) = none →
          (enqueueProcessVideo q params).2.enqueued = true
            ∧ getQueueJob (enqueueProcessVideo q params).1 (processVideoJobId params)
              = some { id := processVideoJobId params, name := "process_video",
                       state := .waiting, data := processVideoJobData params }) := by
  refine ⟨?_, ?_, ?_⟩
  · intro j hj hst
    simp only [enqueueProcessVideo, hj]
    rw [if_pos hst]
    exact ⟨rfl, rfl⟩
  · intro j hj hst
    simp only [enqueueProcessVideo, hj]
    have hne : ¬ (j.state = .waiting ∨ j.state = .delayed) := by
      rcases hst with h | h | h <;> simp [h]
    rw [if_neg hne]
    rcases hst with h | h | h <;>
      simp only [h] <;>
      refine ⟨trivial, ?_⟩ <;>
      · simp only [reduceIte]
        exact getQueueJob_add_fresh _ _ _ _ (getQueueJob_remove _ _)
  · intro h
    simp only [enqueueProcessVideo, h]
    exact ⟨trivial, getQueueJob_add_fresh _ _ _ _ h⟩

/-- Witness for C1: a second enqueue while the first job is still waiting is
rejected. -/
theorem enqueueProcessVideo_dedup_witness :
    (enqueueProcessVideo
      [{ id := "a1_y1", name := "process_video", state := .waiting,
         data := processVideoJobData
           { agentId := "a1", youtubeVideoId := "y1", youtubeUrl := "u", title := none } }]
      { agentId := "a1", youtubeVideoId := "y1", youtubeUrl := "u", title := none }).2.enqueued
      = false :=
  ((enqueueProcessVideo_dedup
      [{ id := "a1_y1", name := "process_video", state := .waiting,
         data := processVideoJobData
           { agentId := "a1", youtubeVideoId := "y1", youtubeUrl := "u", title := none } }]
      { agentId := "a1", youtubeVideoId := "y1", youtubeUrl := "u", title := none }).1
    { id := "a1_y1", name := "process_video", state := .waiting,
      data := processVideoJobData
        { agentId := "a1", youtubeVideoId := "y1", youtubeUrl := "u", title := none } }
    (by decide) (Or.inl rfl)).1

/-- The checkpoint persists counters but never touches the loop's local
accumulators. -/
theorem backfillCheckpoint_locals (n : Nat) (st : BackfillRunState) :
    (backfillCheckpoint n st).failedVideos = st.failedVideos
      ∧ (backfillCheckpoint n st).processedCount = st.processedCount
      ∧ (backfillCheckpoint n st).enqueuedCount = st.enqueuedCount := by
  unfold backfillCheckpoint
  split <;> exact ⟨rfl, rfl, rfl⟩

/-- Accumulator bookkeeping of the scan loop: folding over the fetched list
appends exactly the expected failure entries and counts exactly the successful
upserts. -/
theorem backfill_fold_accum (n : Nat) (videos : List (YtVideo × PerVideoOutcome)) :
    ∀ st : BackfillRunState,
      ((videos.foldl (backfillStep n) st).failedVideos
          = st.failedVideos ++ expectedFailedEntries videos)
        ∧ ((videos.foldl (backfillStep n) st).processedCount
          = st.processedCount + upsertOkCount videos) := by
  induction videos with
  | nil => intro st; simp [expectedFailedEntries, upsertOkCount]
  | cons vo rest ih =>
    intro st
    obtain ⟨v, o⟩ := vo
    rcases o with e | ⟨status, enq⟩
    · have h := ih (backfillRecordFailure st v e)
      simp only [List.foldl_cons, backfillStep]
      rw [h.1, h.2]
      simp [backfillRecordFailure, expectedFailedEntries, upsertOkCount]
    · rcases status with _ | _ | _ | _ <;> rcases enq with e | b
      case discovered.error =>
        have h := ih (backfillRecordFailure
          { st with processedCount := st.processedCount + 1 } v e)
        simp only [List.foldl_cons, backfillStep]
        rw [h.1, h.2]
        simp [backfillRecordFailure, expectedFailedEntries, upsertOkCount]
        omega
      case discovered.ok =>
        cases b
        · have h := ih (backfillCheckpoint n
            { st with processedCount := st.processedCount + 1 })
          simp only [List.foldl_cons, backfillStep]
          rw [if_neg Bool.false_ne_true]
          rw [h.1, h.2]
          have hl := backfillCheckpoint_locals n
            { st with processedCount := st.processedCount + 1 }
          rw [hl.1, hl.2.1]
          simp [expectedFailedEntries, upsertOkCount]
          omega
        · have h := ih (backfillCheckpoint n
            { st with
              processedCount := st.processedCount + 1
              enqueuedCount := st.enqueuedCount + 1
              obs := st.obs ++ [rowCounters st.row] })
          simp only [List.foldl_cons, backfillStep, if_true]
          rw [h.1, h.2]
          have hl := backfillCheckpoint_locals n
            { st with
              processedCount := st.processedCount + 1
              enqueuedCount := st.enqueuedCount + 1
              obs := st.obs ++ [rowCounters st.row] }
          rw [hl.1, hl.2.1]
          simp [expectedFailedEntries, upsertOkCount]
          omega
      all_goals
        have h := ih (backfillCheckpoint n
          { st with processedCount := st.processedCount + 1 })
        simp only [List.foldl_cons, backfillStep]
        rw [h.1, h.2]
        have hl := backfillCheckpoint_locals n
          { st with processedCount := st.processedCount + 1 }
        rw [hl.1, hl.2.1]
        simp [expectedFailedEntries, upsertOkCount]
        omega

/-- C6: a per-video error (upsert or enqueue throwing) is caught and recorded
as a `{videoId, title, sanitized reason}` entry; the scan then handles every
remaining video (the failure entries are exactly those of the failing videos,
in list order) and the job still ends with status `completed`. -/
theorem processBackfillJob_per_video_failures (row0 : BackfillJobRow)
    (videos : List (YtVideo × PerVideoOutcome)) :
    (processBackfillJob row0 (.ok videos)).row.status = .completed
      ∧ (processBackfillJob row0 (.ok videos)).row.failed_videos
        = expectedFailedEntries videos
      ∧ (processBackfillJob row0 (.ok videos)).row.processed_videos
        = upsertOkCount videos := by
  simp only [processBackfillJob]
  refine ⟨trivial, ?_, ?_⟩
  · rw [(backfill_fold_accum videos.length videos _).1]
    simp
  · rw [(backfill_fold_accum videos.length videos _).2]
    simp

/-- The catch-block bookkeeping preserves the run invariant: counters are
untouched and the persisted observation repeats the row's counters. -/
theorem backfillRecordFailure_inv (n : Nat) (st : BackfillRunState) (v : YtVideo)
    (e : String) (h : BackfillInv n st) :
    BackfillInv n (backfillRecordFailure st v e)
      ∧ (backfillRecordFailure st v e).processedCount = st.processedCount := by
  obtain ⟨h1, h2, h3, h4, h5⟩ := h
  refine ⟨⟨h1, h2, h3, h4, ?_⟩, rfl⟩
  intro o ho
  simp only [backfillRecordFailure, List.mem_append, List.mem_singleton] at ho
  rcases ho with ho | ho
  · exact h5 o ho
  · subst ho
    exact ⟨by simpa [rowCounters, h1] using h2, by simpa [rowCounters] using h3⟩

/-- The checkpoint preserves the run invariant when the local processed count
is within the total. -/
theorem backfillCheckpoint_inv (n : Nat) (st : BackfillRunState)
    (h : BackfillInv n st) (hpc : st.processedCount ≤ n) :
    BackfillInv n (backfillCheckpoint n st)
      ∧ (backfillCheckpoint n st).processedCount = st.processedCount := by
  obtain ⟨h1, h2, h3, h4, h5⟩ := h
  refine ⟨?_, (backfillCheckpoint_locals n st).2.1⟩
  unfold backfillCheckpoint
  split
  · refine ⟨h1, by simpa using hpc, by simpa using h4, h4, ?_⟩
    intro o ho
    simp only [List.mem_append, List.mem_cons, List.not_mem_nil, or_false] at ho
    rcases ho with ho | ho | ho <;>
      [exact h5 o ho;
       (subst ho
        exact ⟨by simpa [rowCounters, h1] using hpc, by simpa [rowCounters] using h4⟩);
       (subst ho
        exact ⟨by simpa [rowCounters, h1] using hpc, by simpa [rowCounters] using h4⟩)]
  · exact ⟨h1, h2, h3, h4, h5⟩

/-- Invariant of the whole scan loop: starting within budget, every state the
fold reaches keeps the row's counters within the invariant and logs only
well-formed observations. -/
theorem backfill_fold_inv (n : Nat) (videos : List (YtVideo × PerVideoOutcome)) :
    ∀ st : BackfillRunState, BackfillInv n st →
      st.processedCount + videos.length ≤ n →
      BackfillInv n (videos.foldl (backfillStep n) st)
        ∧ (videos.foldl (backfillStep n) st).processedCount ≤ n := by
  induction videos with
  | nil =>
    intro st h hb
    exact ⟨h, by simpa using hb⟩
  | cons vo rest ih =>
    intro st h hb
    obtain ⟨v, o⟩ := vo
    have hb1 : st.processedCount + 1 ≤ n := by
      have := hb
      simp only [List.length_cons] at this
      omega
    rcases o with e | ⟨status, enq⟩
    · -- upsert threw
      have hstep := backfillRecordFailure_inv n st v e h
      have hrest : (backfillRecordFailure st v e).processedCount + rest.length ≤ n := by
        rw [hstep.2]
        simp only [List.length_cons] at hb
        omega
      simpa only [List.foldl_cons, backfillStep] using ih _ hstep.1 hrest
    · rcases status with _ | _ | _ | _ <;> [skip; skip; skip; skip] <;> rcases enq with e | b
      case discovered.error =>
        have h' : BackfillInv n { st with processedCount := st.processedCount + 1 } := by
          obtain ⟨h1, h2, h3, h4, h5⟩ := h
          exact ⟨h1, h2, h3, by simpa using Nat.le_succ_of_le h4, h5⟩
        have hstep := backfillRecordFailure_inv n
          { st with processedCount := st.processedCount + 1 } v e h'
        have hrest : (backfillRecordFailure
            { st with processedCount := st.processedCount + 1 } v e).processedCount
            + rest.length ≤ n := by
          rw [hstep.2]
          dsimp only
          simp only [List.length_cons] at hb
          omega
        simpa only [List.foldl_cons, backfillStep] using ih _ hstep.1 hrest
      case discovered.ok =>
        cases b
        · have h' : BackfillInv n { st with processedCount := st.processedCount + 1 } := by
            obtain ⟨h1, h2, h3, h4, h5⟩ := h
            exact ⟨h1, h2, h3, by simpa using Nat.le_succ_of_le h4, h5⟩
          have hstep := backfillCheckpoint_inv n
            { st with processedCount := st.processedCount + 1 } h' (by simpa using hb1)
          have hrest : (backfillCheckpoint n
              { st with processedCount := st.processedCount + 1 }).processedCount
              + rest.length ≤ n := by
            rw [hstep.2]
            dsimp only
            simp only [List.length_cons] at hb
            omega
          have := ih _ hstep.1 hrest
          simpa only [List.foldl_cons, backfillStep, if_neg Bool.false_ne_true] using this
        · have h' : BackfillInv n
              { st with
                processedCount := st.processedCount + 1
                enqueuedCount := st.enqueuedCount + 1
                obs := st.obs ++ [rowCounters st.row] } := by
            obtain ⟨h1, h2, h3, h4, h5⟩ := h
            refine ⟨h1, h2, h3, by simpa using Nat.succ_le_succ h4, ?_⟩
            intro o ho
            simp only [List.mem_append, List.mem_singleton] at ho
            rcases ho with ho | ho
            · exact h5 o ho
            · subst ho
              exact ⟨by simpa [rowCounters, h1] using h2, by simpa [rowCounters] using h3⟩
          have hstep := backfillCheckpoint_inv n
            { st with
              processedCount := st.processedCount + 1
              enqueuedCount := st.enqueuedCount + 1
              obs := st.obs ++ [rowCounters st.row] } h' (by simpa using hb1)
          have hrest : (backfillCheckpoint n
              { st with
                processedCount := st.processedCount + 1
                enqueuedCount := st.enqueuedCount + 1
                obs := st.obs ++ [rowCounters st.row] }).processedCount
              + rest.length ≤ n := by
            rw [hstep.2]
            dsimp only
            simp only [List.length_cons] at hb
            omega
          have := ih _ hstep.1 hrest
          simpa only [List.foldl_cons, backfillStep, if_true] using this
      all_goals
        have h' : BackfillInv n { st with processedCount := st.processedCount + 1 } := by
          obtain ⟨h1, h2, h3, h4, h5⟩ := h
          exact ⟨h1, h2, h3, by simpa using Nat.le_succ_of_le h4, h5⟩
        have hstep := backfillCheckpoint_inv n
          { st with processedCount := st.processedCount + 1 } h' (by simpa using hb1)
        have hrest : (backfillCheckpoint n
            { st with processedCount := st.processedCount + 1 }).processedCount
            + rest.length ≤ n := by
          rw [hstep.2]
          dsimp only
          simp only [List.length_cons] at hb
          omega
        simpa only [List.foldl_cons, backfillStep] using ih _ hstep.1 hrest

/-- C5: starting from a freshly created row (counters default to zero), every
point at which `processBackfillJob` persists or publishes the job's counters
satisfies `processedVideos ≤ totalVideos` and
`enqueuedVideos ≤ processedVideos` — on the happy path, on every per-video
failure path, and on the outer failure path. -/
theorem processBackfillJob_counter_invariant (row0 : BackfillJobRow)
    (fetchRes : Except String (List (YtVideo × PerVideoOutcome)))
    (hp : row0.processed_videos = 0) (he : row0.enqueued_videos = 0) :
    ∀ o ∈ (processBackfillJob row0 fetchRes).obs, countersOk o := by
  rcases fetchRes with e | videos
  · intro o ho
    simp only [processBackfillJob] at ho
    simp only [List.append_nil, List.nil_append, List.cons_append, List.mem_cons,
      List.not_mem_nil, or_false] at ho
    rcases ho with ho | ho | ho | ho <;>
      · subst ho
        exact ⟨by simp [rowCounters, hp], by simp [rowCounters, hp, he]⟩
  · have hInv : BackfillInv videos.length
        { row := { { row0 with status := .processing, error := none } with
                   total_videos := videos.length }
          processedCount := 0
          enqueuedCount := 0
          failedVideos := []
          obs := [rowCounters { row0 with status := .processing, error := none },
                  rowCounters { row0 with status := .processing, error := none }] ++
                 [rowCounters { { row0 with status := .processing, error := none } with
                    total_videos := videos.length },
                  rowCounters { { row0 with status := .processing, error := none } with
                    total_videos := videos.length }] } := by
      refine ⟨rfl, by simp [hp], by simp [hp, he], le_refl 0, ?_⟩
      intro o ho
      simp only [List.cons_append, List.nil_append, List.mem_cons,
        List.not_mem_nil, or_false] at ho
      rcases ho with ho | ho | ho | ho <;>
        · subst ho
          exact ⟨by simp [rowCounters, hp], by simp [rowCounters, hp, he]⟩
    have hfold := backfill_fold_inv videos.length videos _ hInv (by simp)
    intro o ho
    simp only [processBackfillJob] at ho
    rw [List.mem_append] at ho
    rcases ho with ho | ho
    · exact hfold.1.2.2.2.2 o ho
    · simp only [List.mem_cons, List.not_mem_nil, or_false] at ho
      have hn := hfold.1.1
      have hpc := hfold.2
      have hec := hfold.1.2.2.2.1
      rcases ho with ho | ho | ho <;>
        · subst ho
          exact ⟨le_of_le_of_eq hpc hn.symm, hec⟩

/-- Witness for C5 on a concrete fresh job with an empty scan. -/
theorem processBackfillJob_counter_invariant_witness :
    countersOk (0, 0, 0) :=
  processBackfillJob_counter_invariant
    { id := "b1", agent_id := "a1", status := .pending, total_videos := 0,
      processed_videos := 0, enqueued_videos := 0, failed_videos := [], error := none }
    (.ok []) rfl rfl (0, 0, 0) (by decide)

/-- One `createEpisode` attempt preserves the table's integrity: every row
still belongs to its video's agent, and no video is referenced by more than
one row.  The second part is exactly what the schema's
`UNIQUE (agent_id, video_id)` check enforces once all inserts for a video use
the video's own agent (which the worker guarantees: it resolves the video by
`findVideoByYouTubeId(agentId, ...)`, so `video.agent_id = agentId`, see
`findVideoByYouTubeId_keys`). -/
theorem createEpisodeTable_preserves (agentOf : String → String) (t : List Episode)
    (input : CreateEpisodeInput) (freshId : String)
    (ht : ∀ e ∈ t, e.agent_id = agentOf e.video_id)
    (hc : ∀ v, episodeCountForVideo t v ≤ 1)
    (hi : input.agent_id = agentOf input.video_id) :
    (∀ e ∈ createEpisodeTable t input freshId, e.agent_id = agentOf e.video_id)
      ∧ (∀ v, episodeCountForVideo (createEpisodeTable t input freshId) v ≤ 1) := by
  unfold createEpisodeTable createEpisode
  by_cases hdup : (t.any (fun e => e.agent_id = input.agent_id ∧ e.video_id = input.video_id))
      = true
  · rw [if_pos hdup]
    exact ⟨ht, hc⟩
  · rw [if_neg hdup]
    by_cases hg : (t.any (fun e => e.agent_id = input.agent_id ∧ e.guid = input.guid)) = true
    · rw [if_pos hg]
      exact ⟨ht, hc⟩
    · rw [if_neg hg]
      dsimp only
      constructor
      · intro e he
        rcases List.mem_append.mp he with he | he
        · exact ht e he
        · simp only [List.mem_singleton] at he
          subst he
          exact hi
      · intro v
        rw [episodeCountForVideo, List.filter_append, List.length_append]
        by_cases hv : input.video_id = v
        · have hzero : t.filter (fun e => e.video_id = v) = [] := by
            rw [List.filter_eq_nil_iff]
            intro e he
            simp only [decide_eq_true_eq]
            intro hev
            have hea : e.agent_id = input.agent_id := by
              rw [ht e he, hev, ← hv, hi, hv]
            exact hdup (List.any_eq_true.mpr ⟨e, he, by simp [hea, hev, ← hv]⟩)
          rw [hzero]
          simp only [List.length_nil, Nat.zero_add]
          exact le_trans (List.length_filter_le _ _) (by simp)
        · have hone : List.filter (fun e => e.video_id = v)
              [({ id := freshId, agent_id := input.agent_id, video_id := input.video_id,
                  title := input.title, description := jsStrOrNull input.description,
                  audio_url := input.audio_url, audio_size_bytes := input.audio_size_bytes,
                  duration_seconds := input.duration_seconds, guid := input.guid,
                  published_at := input.published_at, published := input.published } :
                Episode)] = [] := by
            simp [hv]
          rw [hone]
          simpa using hc v

/-- C3: at most one Episode row per video.  Any sequence of pipeline
`createEpisode` attempts — including re-attempts from retried jobs — starting
from a table with at most one row per video (all owned by the video's agent)
leaves at most one row per video, because the duplicate insert fails against
the unique constraint instead of adding a row. -/
theorem runCreateEpisodes_at_most_one_per_video (agentOf : String → String)
    (t0 : List Episode) (attempts : List (CreateEpisodeInput × String))
    (h0 : ∀ e ∈ t0, e.agent_id = agentOf e.video_id)
    (h1 : ∀ v, episodeCountForVideo t0 v ≤ 1)
    (hatt : ∀ a ∈ attempts, a.1.agent_id = agentOf a.1.video_id) :
    ∀ v, episodeCountForVideo (runCreateEpisodes t0 attempts) v ≤ 1 := by
  induction attempts generalizing t0 with
  | nil => simpa [runCreateEpisodes] using h1
  | cons a rest ih =>
    have hstep := createEpisodeTable_preserves agentOf t0 a.1 a.2 h0 h1
      (hatt a (List.mem_cons_self a rest))
    have hrec := ih (createEpisodeTable t0 a.1 a.2) hstep.1 hstep.2
      (fun b hb => hatt b (List.mem_cons_of_mem _ hb))
    simpa [runCreateEpisodes, List.foldl_cons] using hrec

/-- Witness for C3: a retried job attempts the same episode insert twice; the
table keeps a single row for the video. -/
theorem runCreateEpisodes_at_most_one_per_video_witness :
    episodeCountForVideo
      (runCreateEpisodes []
        [({ agent_id := "a1", video_id := "v1", title := "t",
            description := none, audio_url := "u", audio_size_bytes := 1,
            duration_seconds := some 60, guid := "a1:y1", published_at := "2026-01-01",
            published := true }, "e1"),
         ({ agent_id := "a1", video_id := "v1", title := "t",
            description := none, audio_url := "u", audio_size_bytes := 1,
            duration_seconds := some 60, guid := "a1:y1", published_at := "2026-01-01",
            published := true }, "e2")]) "v1" ≤ 1 :=
  runCreateEpisodes_at_most_one_per_video (fun _ => "a1") _ _
    (by simp) (fun v => by simp [episodeCountForVideo]) (by simp) "v1"

/-- C4: on every successful run of `processVideoOrchestrator`, the progress
values emitted through `updateProgress` are non-decreasing and the final one is
exactly 100 (the successful emission sequence is 5, 25, 65, 75, 85, 95, 100). -/
theorem processVideoOrchestrator_progress_monotone (env : OrchestratorEnv)
    (input : ProcessVideoInput)
    (h : exceptIsOk (processVideoOrchestrator env input).2 = true) :
    List.Chain' (· ≤ ·) ((processVideoOrchestrator env input).1.map Prod.fst)
      ∧ ((processVideoOrchestrator env input).1.map Prod.fst).getLast? = some 100 := by
  obtain ⟨dl, gv, ai, ex, ag, idl, odl, cc, up, ce, cs⟩ := env
  simp only [processVideoOrchestrator] at h ⊢
  rcases dl with e | d
  · exact absurd h (by simp [exceptIsOk])
  dsimp only at h ⊢
  rcases gv with e | ov
  · exact absurd h (by simp [exceptIsOk])
  rcases ov with _ | v
  · exact absurd h (by simp [exceptIsOk])
  dsimp only at h ⊢
  rcases ai with e | a
  · exact absurd h (by simp [exceptIsOk])
  dsimp only at h ⊢
  by_cases hb : a.boundaries.sermon_start_sec < 0
      ∨ a.boundaries.sermon_end_sec > d.durationSeconds
      ∨ a.boundaries.sermon_start_sec ≥ a.boundaries.sermon_end_sec
  · rw [if_pos hb] at h
    exact absurd h (by simp [exceptIsOk])
  rw [if_neg hb] at h ⊢
  rcases ex with e | x
  · exact absurd h (by simp [exceptIsOk])
  dsimp only at h ⊢
  rcases ag with e | oa
  · exact absurd h (by simp [exceptIsOk])
  rcases oa with _ | g
  · exact absurd h (by simp [exceptIsOk])
  dsimp only at h ⊢
  obtain ⟨gid, giu, gou⟩ := g
  rcases giu with _ | iu <;> rcases gou with _ | ou <;>
    rcases idl with ie | ip <;> rcases odl with oe | op <;>
    dsimp only [Except.map] at h ⊢ <;>
    first
      | (simp [exceptIsOk] at h; done)
      | (rcases cc with e | c
         · simp [exceptIsOk] at h
         dsimp only at h ⊢
         rcases up with e | u
         · simp [exceptIsOk] at h
         dsimp only at h ⊢
         rcases ce with e | ep
         · simp [exceptIsOk] at h
         dsimp only at h ⊢
         rcases cs with e | s
         · simp [exceptIsOk] at h
         dsimp only at h ⊢
         exact ⟨by norm_num [List.chain'_cons], by simp⟩)

/-- Witness for C4: a run in which every external call succeeds. -/
theorem processVideoOrchestrator_progress_monotone_witness :
    List.Chain' (· ≤ ·)
      ((processVideoOrchestrator
        { download := .ok { audioPath := "a.m4a", title := "t", durationSeconds := 100 }
          getVideoById := .ok (some
            { id := "v1", agent_id := "a1", youtube_video_id := "y1", youtube_url := "u",
              title := some "t", published_at := some "2026-01-01", duration_seconds := none,
              status := .processing, error_message := none, raw_payload := none })
          runSermonAiStage := .ok
            { boundaries := { sermon_start_sec := 10, sermon_end_sec := 90,
                              confidence := 9/10, explanation := "ok" }
              metadata := { episode_title := "et", episode_description := "ed" }
              decision := { should_autopublish := true, sermon_likeness := 9/10,
                            category := "sermon", reasons := ["r"] } }
          extractSegment := .ok "s.mp3"
          findAgentById := .ok (some { id := "a1", intro_audio_url := none,
                                       outro_audio_url := none })
          downloadIntro := .ok "i.mp3"
          downloadOutro := .ok "o.mp3"
          concatenateAudioFiles := .ok "f.mp3"
          uploadEpisode := .ok { publicUrl := "https://cdn/f.mp3", sizeBytes := 1000 }
          createEpisodeRow := .ok
            { id := "e1", agent_id := "a1", video_id := "v1", title := "et",
              description := some "ed", audio_url := "https://cdn/f.mp3",
              audio_size_bytes := 1000, duration_seconds := some 80, guid := "a1:y1",
              published_at := "2026-01-01", published := true }
          createSegmentationRow := .ok () }
        { agentId := "a1", videoId := "v1", youtubeVideoId := "y1", youtubeUrl := "u" }).1.map
        Prod.fst) :=
  (processVideoOrchestrator_progress_monotone _ _ (by decide)).1

/-- Updating a row's status rewrites exactly that row under the lookup. -/
theorem findBackfillJobById_update (table : List BackfillJobRow) (id : String)
    (status : BackfillStatus) (err : Option String) (job : BackfillJobRow)
    (h : findBackfillJobById table id = some job) :
    findBackfillJobById (updateJobStatusRow table id status err) id
      = some { job with status := status, error := err } := by
  induction table with
  | nil => simp [findBackfillJobById] at h
  | cons a rest ih =>
    by_cases ha : a.id = id
    · simp only [findBackfillJobById, List.find?_cons, ha] at h
      simp only [decide_True, Option.some_inj] at h
      subst h
      simp [findBackfillJobById, updateJobStatusRow, List.find?_cons, ha]
    · simp only [findBackfillJobById, List.find?_cons] at h
      rw [show (decide (a.id = id)) = false by simp [ha]] at h
      have hrec := ih h
      simp only [findBackfillJobById, updateJobStatusRow, List.map_cons,
        List.find?_cons] at hrec ⊢
      rw [if_neg ha]
      rw [show (decide (a.id = id)) = false by simp [ha]]
      exact hrec

/-- C7: `cancelJob` rejects any job that is not `pending`/`processing`; on
success the prior status was `pending`/`processing`, the row is marked
`failed` with reason "Cancelled by user", no waiting/delayed `backfill-scan`
job of this backfill and no waiting/delayed backfill-tagged video job of the
agent remains in the broker, and every queue record the loop does not match is
left in place (nothing else — in particular no running worker — is touched). -/
theorem cancelJob_guard_and_effects (st : CancelState) (jobId agentId : String) :
    (∀ job, findBackfillJobById st.backfillJobs jobId = some job →
        job.agent_id = agentId →
        ¬ (job.status = .pending ∨ job.status = .processing) →
        cancelJob st jobId agentId = .error "Cannot cancel job with this status")
      ∧ (∀ st', cancelJob st jobId agentId = .ok st' →
          (∃ job, findBackfillJobById st.backfillJobs jobId = some job
             ∧ job.agent_id = agentId
             ∧ (job.status = .pending ∨ job.status = .processing)
             ∧ findBackfillJobById st'.backfillJobs jobId
               = some { job with status := .failed, error := some "Cancelled by user" })
          ∧ (∀ j ∈ st'.queue,
              ¬ (j.name = "backfill-scan" ∧ j.data.jobId = some jobId
                 ∧ (j.state = .waiting ∨ j.state = .delayed)))
          ∧ (∀ j ∈ st'.queue,
              ¬ (j.data.source = some "backfill" ∧ j.data.agentId = some agentId
                 ∧ (j.state = .waiting ∨ j.state = .delayed)))
          ∧ (∀ j ∈ st.queue,
              ¬ (fetchedByCancel j.state = true ∧ cancelRemoves jobId agentId j = true) →
              j ∈ st'.queue)) := by
  constructor
  · intro job hj hag hstatus
    simp only [cancelJob, hj]
    rw [if_neg (fun hc => hc hag), if_pos hstatus]
  · intro st' hok
    cases hj : findBackfillJobById st.backfillJobs jobId with
    | none => simp [cancelJob, hj] at hok
    | some job =>
      simp only [cancelJob, hj] at hok
      by_cases hag : job.agent_id = agentId
      case neg =>
        rw [if_pos hag] at hok
        cases hok
      case pos =>
        rw [if_neg (fun hc => hc hag)] at hok
        by_cases hstat : job.status = .pending ∨ job.status = .processing
        case neg =>
          rw [if_pos hstat] at hok
          cases hok
        case pos =>
          rw [if_neg (not_not_intro hstat)] at hok
          cases hok
          refine ⟨⟨job, rfl, hag, hstat, findBackfillJobById_update _ _ _ _ _ hj⟩, ?_, ?_, ?_⟩
          · intro j hjmem hshape
            obtain ⟨hn, hd, hs⟩ := hshape
            have hp := (List.mem_filter.mp hjmem).2
            simp only [decide_eq_true_eq] at hp
            apply hp
            constructor
            · rcases hs with h | h <;> simp [fetchedByCancel, h]
            · simp [cancelRemoves, hn, hd]
          · intro j hjmem hshape
            obtain ⟨hsrc, hagid, hs⟩ := hshape
            have hp := (List.mem_filter.mp hjmem).2
            simp only [decide_eq_true_eq] at hp
            apply hp
            constructor
            · rcases hs with h | h <;> simp [fetchedByCancel, h]
            · by_cases hn : j.name = "backfill-scan" ∧ j.data.jobId = some jobId
              · simp [cancelRemoves, hsrc, hn.1, hn.2]
              · simp only [cancelRemoves, hsrc]
                rw [if_pos (Or.inl trivial), if_neg hn, if_pos ⟨hagid, trivial⟩]
          · intro j hjq hnot
            refine List.mem_filter.mpr ⟨hjq, ?_⟩
            simp only [decide_eq_true_eq]
            exact hnot

/-- Witness for C7: cancelling an already-completed backfill job is rejected. -/
theorem cancelJob_guard_and_effects_witness :
    cancelJob
      { queue := []
        backfillJobs := [{ id := "b1", agent_id := "a1", status := .completed
                           total_videos := 3, processed_videos := 3, enqueued_videos := 3
                           failed_videos := [], error := none }] } "b1" "a1"
      = .error "Cannot cancel job with this status" :=
  (cancelJob_guard_and_effects
    { queue := []
      backfillJobs := [{ id := "b1", agent_id := "a1", status := .completed
                         total_videos := 3, processed_videos := 3, enqueued_videos := 3
                         failed_videos := [], error := none }] } "b1" "a1").1
    { id := "b1", agent_id := "a1", status := .completed
      total_videos := 3, processed_videos := 3, enqueued_videos := 3
      failed_videos := [], error := none }
    (by decide) rfl (by decide)

/-- JS `split` never returns an empty array. -/
theorem splitEq_ne_nil (l : List Char) : splitEq l ≠ [] := by
  cases l with
  | nil => simp [splitEq]
  | cons c rest =>
    simp only [splitEq]
    split
    · simp
    · split <;> simp

/-- A separator-free string splits into itself. -/
theorem splitEq_no_eq (l : List Char) (h : '=' ∉ l) : splitEq l = [l] := by
  induction l with
  | nil => rfl
  | cons c rest ih =>
    have hc : ¬ c = '=' := fun hc => h (by rw [hc]; exact List.mem_cons_self '=' rest)
    have hr : '=' ∉ rest := fun hr => h (List.mem_cons_of_mem _ hr)
    simp only [splitEq, ih hr]
    rw [if_neg hc]

/-- Splitting after a separator-free prefix peels that prefix off. -/
theorem splitEq_append (l t : List Char) (h : '=' ∉ l) :
    splitEq (l ++ '=' :: t) = l :: splitEq t := by
  induction l with
  | nil =>
    simp only [List.nil_append, splitEq]
    rcases hs : splitEq t with _ | ⟨seg, segs⟩
    · exact absurd hs (splitEq_ne_nil t)
    · dsimp only
      simp
  | cons c rest ih =>
    have hc : ¬ c = '=' := fun hc => h (by rw [hc]; exact List.mem_cons_self '=' rest)
    have hr : '=' ∉ rest := fun hr => h (List.mem_cons_of_mem _ hr)
    rw [List.cons_append]
    simp only [splitEq]
    rw [ih hr]
    dsimp only
    rw [if_neg hc]

/-- Function `joinEq` undoes `splitEq`. -/
theorem joinEq_splitEq (s : List Char) : joinEq (splitEq s) = s := by
  induction s with
  | nil => rfl
  | cons c rest ih =>
    simp only [splitEq]
    rcases hs : splitEq rest with _ | ⟨seg, segs⟩
    · exact absurd hs (splitEq_ne_nil rest)
    · rw [hs] at ih
      dsimp only
      by_cases hc : c = '='
      · rw [if_pos hc]
        subst hc
        simpa [joinEq] using ih
      · rw [if_neg hc]
        cases segs with
        | nil =>
          simp only [joinEq] at ih ⊢
          rw [ih]
        | cons y ys =>
          simp only [joinEq, List.cons_append] at ih ⊢
          rw [ih]

/-- Counterexample to C9 as stated: with the computed HMAC hex
`0a…67`, the header `sha1=0a…67=x` is **not** of the form `sha1=<hex>` with
`<hex>` the body's HMAC, yet `verifySignature` accepts it — even with
`NODE_ENV=production`; and in a non-production environment the present-but-empty
header `""` is accepted as well.  So "returns true exactly when the header has
the form `sha1=<hex>` and `<hex>` equals the HMAC" fails on the code. -/
theorem verifySignature_claim_counterexample :
    verifySignature ("0a1b2c3d4e5f60718293a4b5c6d7e8f901234567".toList) true
        (some ("sha1=0a1b2c3d4e5f60718293a4b5c6d7e8f901234567=x".toList)) = true
      ∧ "sha1=0a1b2c3d4e5f60718293a4b5c6d7e8f901234567=x".toList
          ≠ "sha1=".toList ++ "0a1b2c3d4e5f60718293a4b5c6d7e8f901234567".toList
      ∧ verifySignature ("0a1b2c3d4e5f60718293a4b5c6d7e8f901234567".toList) false
          (some "".toList) = true
      ∧ "".toList ≠ "sha1=".toList ++ "0a1b2c3d4e5f60718293a4f5c6d7e8f901234567".toList := by
  refine ⟨by decide, by decide, by decide, by decide⟩

/-- C9 (amended): `verifySignature` returns true exactly when either (a) the
header is absent or empty (JS-falsy) and `NODE_ENV` is not production, or
(b) the header is `sha1=<hmac hex>` possibly followed by further
`'='`-separated fields, which are ignored.  Any other algorithm prefix is
rejected in every environment, an absent header is accepted exactly outside
production, and a notification failing verification is dropped before any
further processing. -/
theorem verifySignature_characterization (hmacHex : List Char) (isProd : Bool)
    (sig : Option (List Char)) (effects : List String)
    (hne : hmacHex ≠ []) (hnoeq : '=' ∉ hmacHex) :
    (verifySignature hmacHex isProd sig = true ↔
      ((sig = none ∨ sig = some []) ∧ isProd = false)
        ∨ (∃ t, sig = some ("sha1=".toList ++ hmacHex ++ t)
            ∧ (t = [] ∨ ∃ t2, t = '=' :: t2)))
      ∧ (verifySignature hmacHex isProd sig = false →
          processYouTubeNotification hmacHex isProd sig effects = []) := by
  have hlit : "sha1=".toList = "sha1".toList ++ ['='] := by decide
  have hsha : '=' ∉ "sha1".toList := by decide
  constructor
  · constructor
    · -- the code accepts → the header has one of the two shapes
      intro hv
      rcases sig with _ | s
      · exact Or.inl ⟨Or.inl rfl, by simpa [verifySignature] using hv⟩
      by_cases hs0 : s = []
      · subst hs0
        simp only [verifySignature, if_pos rfl] at hv
        exact Or.inl ⟨Or.inr rfl, by simpa using hv⟩
      right
      simp only [verifySignature] at hv
      rw [if_neg hs0] at hv
      rcases hsp : splitEq s with _ | ⟨alg, rest⟩
      · exact absurd hsp (splitEq_ne_nil s)
      rw [hsp] at hv
      dsimp only at hv
      by_cases halg : alg = "sha1".toList
      case neg =>
        rw [if_pos halg] at hv
        cases hv
      rw [if_neg (not_not_intro halg)] at hv
      rcases rest with _ | ⟨expected, rest2⟩
      · cases hv
      dsimp only at hv
      have hexp : hmacHex = expected := of_decide_eq_true hv
      subst hexp
      have hjoin := joinEq_splitEq s
      rw [hsp, halg] at hjoin
      cases rest2 with
      | nil =>
        refine ⟨[], ?_, Or.inl rfl⟩
        rw [← hjoin]
        simp only [joinEq, hlit, List.append_assoc, List.singleton_append,
          List.append_nil]
      | cons y ys =>
        refine ⟨'=' :: joinEq (y :: ys), ?_, Or.inr ⟨joinEq (y :: ys), rfl⟩⟩
        rw [← hjoin]
        simp [joinEq, hlit, List.append_assoc, List.singleton_append, List.cons_append]
    · -- both shapes are accepted by the code
      intro hrhs
      rcases hrhs with ⟨hsig, hp⟩ | ⟨t, hsig, ht⟩
      · rcases hsig with h | h <;> subst h <;> simp [verifySignature, hp]
      subst hsig
      have hs0 : ¬ "sha1=".toList ++ hmacHex ++ t = [] := by
        rw [hlit]
        simp
      simp only [verifySignature]
      rw [if_neg hs0]
      rcases ht with rfl | ⟨t2, rfl⟩
      · have hsplit : splitEq ("sha1=".toList ++ hmacHex ++ []) =
            "sha1".toList :: [hmacHex] := by
          rw [List.append_nil, hlit, List.append_assoc, List.singleton_append,
            splitEq_append _ _ hsha, splitEq_no_eq hmacHex hnoeq]
        rw [hsplit]
        dsimp only
        rw [if_neg (not_not_intro rfl)]
        simp
      · have hsplit : splitEq ("sha1=".toList ++ hmacHex ++ ('=' :: t2)) =
            "sha1".toList :: hmacHex :: splitEq t2 := by
          rw [hlit, List.append_assoc, List.append_assoc, List.singleton_append,
            splitEq_append _ _ hsha, splitEq_append _ _ hnoeq]
        rw [hsplit]
        dsimp only
        rw [if_neg (not_not_intro rfl)]
        simp
  · intro hv
    simp [processYouTubeNotification, hv]

/-- Witness for the amended C9: the canonical well-formed header is accepted
in production, instantiating the characterization at a concrete HMAC. -/
theorem verifySignature_characterization_witness :
    verifySignature ("0a1b2c3d4e5f60718293a4b5c6d7e8f901234567".toList) true
      (some ("sha1=0a1b2c3d4e5f60718293a4b5c6d7e8f901234567".toList)) = true :=
  ((verifySignature_characterization
      ("0a1b2c3d4e5f60718293a4b5c6d7e8f901234567".toList) true
      (some ("sha1=0a1b2c3d4e5f60718293a4b5c6d7e8f901234567".toList)) []
      (by decide) (by decide)).1).mpr
    (Or.inr ⟨[], by decide, Or.inl rfl⟩)

/-- Function `updLast` composes over concatenation. -/
theorem updLast_append (ls : Option (Nat × String)) (a b : List TraceAction) :
    updLast ls (a ++ b) = updLast (updLast ls a) b := by
  induction a generalizing ls with
  | nil => rfl
  | cons x t ih => cases x <;> simp [updLast, ih]

/-- In the live phase the subscriber forwards exactly the published events, in
order, until the first terminal update. -/
theorem runStreamAux_live (t : List TraceAction) :
    ∀ ls, runStreamAux t .live ls = liveMsgs (t.filterMap getPublish) := by
  induction t with
  | nil => intro ls; rfl
  | cons a rest ih =>
    intro ls
    cases a with
    | store p s => simp [runStreamAux, List.filterMap_cons, getPublish, ih]
    | publish p s =>
      simp only [runStreamAux, List.filterMap_cons, getPublish, liveMsgs]
      split <;> simp [ih]
    | connectWrite => simp [runStreamAux, List.filterMap_cons, getPublish, ih]
    | snapshotRead => simp [runStreamAux, List.filterMap_cons, getPublish, ih]
    | subscribeDone => simp [runStreamAux, List.filterMap_cons, getPublish, ih]

/-- Worker-only activity before the `connected` write only moves the stored
state along. -/
theorem runStreamAux_noctrl_start (l : List TraceAction) (h : NoCtrl l) :
    ∀ (rest : List TraceAction) (ls : Option (Nat × String)),
      runStreamAux (l ++ rest) .start ls = runStreamAux rest .start (updLast ls l) := by
  induction l with
  | nil => intro rest ls; rfl
  | cons a t ih =>
    intro rest ls
    have ha := h a (List.mem_cons_self a t)
    have ht : NoCtrl t := fun b hb => h b (List.mem_cons_of_mem _ hb)
    cases a with
    | store p s => simp [runStreamAux, updLast, ih ht]
    | publish p s => simp [runStreamAux, updLast, ih ht]
    | connectWrite => simp [isControl] at ha
    | snapshotRead => simp [isControl] at ha
    | subscribeDone => simp [isControl] at ha

/-- Worker-only activity between the `connected` write and the snapshot read
only moves the stored state along. -/
theorem runStreamAux_noctrl_connected (l : List TraceAction) (h : NoCtrl l) :
    ∀ (rest : List TraceAction) (ls : Option (Nat × String)),
      runStreamAux (l ++ rest) .connected ls
        = runStreamAux rest .connected (updLast ls l) := by
  induction l with
  | nil => intro rest ls; rfl
  | cons a t ih =>
    intro rest ls
    have ha := h a (List.mem_cons_self a t)
    have ht : NoCtrl t := fun b hb => h b (List.mem_cons_of_mem _ hb)
    cases a with
    | store p s => simp [runStreamAux, updLast, ih ht]
    | publish p s => simp [runStreamAux, updLast, ih ht]
    | connectWrite => simp [isControl] at ha
    | snapshotRead => simp [isControl] at ha
    | subscribeDone => simp [isControl] at ha

/-- Worker-only activity between the snapshot read and the completed
`SUBSCRIBE` is invisible to the subscriber: publishes in this window are lost. -/
theorem runStreamAux_noctrl_snapped (l : List TraceAction) (h : NoCtrl l) :
    ∀ (rest : List TraceAction) (ls : Option (Nat × String)),
      runStreamAux (l ++ rest) .snapped ls
        = runStreamAux rest .snapped (updLast ls l) := by
  induction l with
  | nil => intro rest ls; rfl
  | cons a t ih =>
    intro rest ls
    have ha := h a (List.mem_cons_self a t)
    have ht : NoCtrl t := fun b hb => h b (List.mem_cons_of_mem _ hb)
    cases a with
    | store p s => simp [runStreamAux, updLast, ih ht]
    | publish p s => simp [runStreamAux, updLast, ih ht]
    | connectWrite => simp [isControl] at ha
    | snapshotRead => simp [isControl] at ha
    | subscribeDone => simp [isControl] at ha

/-- C8 (amended): on every admissible interleaving, `streamJobProgress` writes
`connected`, then a snapshot equal to the state stored at the moment of the
snapshot read (after connect, but possibly older than the live subscription),
then exactly the events published after the `SUBSCRIBE` completes, in order and
without loss, up to the first terminal update.  Events published between the
snapshot read and the completed `SUBSCRIBE` (the segment `t3`) are never
delivered. -/
theorem streamJobProgress_snapshot_then_live (t1 t2 t3 t4 : List TraceAction)
    (h1 : NoCtrl t1) (h2 : NoCtrl t2) (h3 : NoCtrl t3) (h4 : NoCtrl t4) :
    streamJobProgress (t1 ++ [.connectWrite] ++ t2 ++ [.snapshotRead] ++ t3
        ++ [.subscribeDone] ++ t4)
      = SseMsg.connected :: (snapMsgs (updLast none (t1 ++ t2))
          ++ liveMsgs (t4.filterMap getPublish)) := by
  rw [streamJobProgress]
  simp only [List.append_assoc, List.cons_append, List.nil_append]
  rw [runStreamAux_noctrl_start t1 h1]
  simp only [runStreamAux]
  rw [runStreamAux_noctrl_connected t2 h2]
  rw [updLast_append]
  cases hls : updLast (updLast none t1) t2 with
  | none =>
    simp only [runStreamAux, snapMsgs]
    rw [runStreamAux_noctrl_snapped t3 h3]
    simp only [runStreamAux]
    rw [runStreamAux_live]
    simp
  | some ps =>
    obtain ⟨p, s⟩ := ps
    simp only [runStreamAux, snapMsgs]
    rw [runStreamAux_noctrl_snapped t3 h3]
    simp only [runStreamAux]
    rw [runStreamAux_live]
    simp

/-- Witness for the amended C8 at a concrete interleaving. -/
theorem streamJobProgress_snapshot_then_live_witness :
    streamJobProgress [.connectWrite, .store 25 "a", .snapshotRead, .subscribeDone,
        .publish 100 "done"]
      = [SseMsg.connected, .snapshot 25 "a", .progress 100 "done", .complete] := by
  have h := streamJobProgress_snapshot_then_live [] [.store 25 "a"] [] [.publish 100 "done"]
    (by unfold NoCtrl; decide) (by unfold NoCtrl; decide)
    (by unfold NoCtrl; decide) (by unfold NoCtrl; decide)
  simpa [updLast, snapMsgs, liveMsgs, getPublish, isTerminalUpdate] using h

/-- Counterexample to C8 as stated: in the admissible interleaving `cexTrace`
— realizable because the worker stores and then publishes each update — the
event `(25, "a")` is published after the subscriber connected yet never reaches
the stream (a gap), and the live event `(45, "b")` repeats exactly the state
the snapshot already delivered (a duplicate). -/
theorem streamJobProgress_claim_counterexample :
    Admissible cexTrace ∧ ¬ SnapshotThenLiveClaim cexTrace := by
  constructor
  · exact ⟨[], [.store 25 "a", .publish 25 "a", .store 45 "b"], [],
      [.publish 45 "b", .store 100 "c", .publish 100 "c"],
      by decide, by unfold NoCtrl; decide, by unfold NoCtrl; decide,
      by unfold NoCtrl; decide, by unfold NoCtrl; decide⟩
  · unfold SnapshotThenLiveClaim
    decide

end ChurchMedia
